import Mathlib

/-!
Verification of the color-aware visual similarity search engine of the
price-tracker repository, as a shallow embedding in Lean.

Source files embedded here:
  * `api/util.py`   — color classification, sharded FAISS vector index
  * `api/tasks.py`  — the asynchronous visual-search job task
  * `api/views.py`  — the job status endpoint
  * `api/enhanced_preprocessor.py` — the image normalization pipeline

Machine floats are modelled by `ℚ`; FAISS `IndexFlatL2` distances are the
squared L2 distances it actually returns; external black boxes (k-means
clustering, the ResNet feature extractor, OCR) are abstracted as oracles or
opaque inputs, never re-implemented.
-/

namespace PriceTracker

/-- Color categories of `COLOR_CATEGORIES` in `api/util.py` plus the
`'unknown'` fallback category. -/
inductive Cat where
  | red
  | orange
  | yellow
  | green
  | blue
  | purple
  | pink
  | white
  | black
  | brown
  | unknown
deriving DecidableEq, Repr

/-- Keys of `self.color_indices` in insertion order:
`list(COLOR_CATEGORIES.keys()) + ['unknown']` (util.py line 667). -/
def allCats : List Cat :=
  [.red, .orange, .yellow, .green, .blue, .purple, .pink, .white, .black,
   .brown, .unknown]

/-- Embedding of `get_similar_color_categories` (util.py lines 774-788);
`similar_map.get(color_category, [])` returns `[]` for `'unknown'`. -/
def get_similar_color_categories : Cat → List Cat
  | .red => [.pink, .orange]
  | .orange => [.red, .yellow]
  | .yellow => [.orange, .green]
  | .green => [.yellow, .blue]
  | .blue => [.green, .purple]
  | .purple => [.blue, .pink]
  | .pink => [.red, .purple]
  | .white => [.black]
  | .black => [.white]
  | .brown => [.orange, .red]
  | .unknown => []

/-- Embedding of `np.resize(v, (d,))`: the array is repeated cyclically to
length `d`; an empty array yields zeros. -/
def npResize (v : List ℚ) (d : ℕ) : List ℚ :=
  if v.isEmpty then List.replicate d 0
  else (List.range d).map (fun i => v.getD (i % v.length) 0)

/-- The dimension fix applied by both `add_product` (util.py lines 677-679)
and `search` (lines 714-716): vectors of mismatched length are resized. -/
def fixDim (d : ℕ) (v : List ℚ) : List ℚ :=
  if v.length = d then v else npResize v d

/-- The distance computed by `faiss.IndexFlatL2.search`: the squared
Euclidean (L2) distance between two vectors. -/
def sqDistL2 (q v : List ℚ) : ℚ :=
  ((q.zip v).map (fun p => (p.1 - p.2) ^ 2)).sum

/-- One result of `ColorAwareProductVectorIndex.search` (util.py lines
757-763).  The `metadata` passthrough field is omitted: no claim mentions
it. -/
structure SearchResult where
  product_id : ℕ
  distance : ℚ
  color_category : Cat
  is_exact_color_match : Bool
deriving DecidableEq, Repr

/-- State of `ColorAwareProductVectorIndex` (util.py lines 658-671): one
shard per color category, each an insertion-ordered list of
`(product_id, vector)` pairs.  `__init__` fixes `dimension = 2048`.  The
`product_metadata` dict is omitted: no claim depends on it. -/
structure ProdIndex where
  dimension : ℕ
  shards : Cat → List (ℕ × List ℚ)

/-- The index built by `ColorAwareProductVectorIndex.__init__`. -/
def emptyIndex : ProdIndex :=
  { dimension := 2048, shards := fun _ => [] }

/-- Embedding of `add_product` (util.py lines 673-697): resize the vector
to the index dimension and append to the shard of `color_category`.  (The
Python fallback for a category string outside the dict is subsumed by
`Cat` containing exactly the dict's keys, `unknown` included.) -/
def add_product (idx : ProdIndex) (product_id : ℕ) (v : List ℚ)
    (color_category : Cat) : ProdIndex :=
  let v' := fixDim idx.dimension v
  { idx with
    shards := fun c =>
      if c = color_category then idx.shards c ++ [(product_id, v')]
      else idx.shards c }

/-- A within-shard candidate: position in the shard (FAISS internal id),
product id, and squared L2 distance to the query. -/
structure Cand where
  enumIdx : ℕ
  product_id : ℕ
  distance : ℚ
deriving DecidableEq, Repr

/-- Order in which a FAISS flat index returns candidates: ascending
distance, ties broken by ascending internal id. -/
def candLe (a b : Cand) : Prop :=
  a.distance < b.distance ∨ (a.distance = b.distance ∧ a.enumIdx ≤ b.enumIdx)

instance : DecidableRel candLe := fun a b =>
  inferInstanceAs (Decidable (_ ∨ _))

instance : IsTotal Cand candLe := by
  constructor
  intro a b
  rcases lt_trichotomy a.distance b.distance with h | h | h
  · exact Or.inl (Or.inl h)
  · rcases Nat.le_total a.enumIdx b.enumIdx with h2 | h2
    · exact Or.inl (Or.inr ⟨h, h2⟩)
    · exact Or.inr (Or.inr ⟨h.symm, h2⟩)
  · exact Or.inr (Or.inl h)

instance : IsTrans Cand candLe := by
  constructor
  intro a b c hab hbc
  rcases hab with h | ⟨he, hi⟩
  · rcases hbc with h2 | ⟨he2, _⟩
    · exact Or.inl (h.trans h2)
    · exact Or.inl (he2 ▸ h)
  · rcases hbc with h2 | ⟨he2, hi2⟩
    · exact Or.inl (he ▸ h2)
    · exact Or.inr ⟨he.trans he2, hi.trans hi2⟩

/-- Embedding of one `color_index['index'].search(query, category_k)` call
plus the result loop (util.py lines 749-764 minus the per-result record):
the `k` candidates of smallest squared distance, ascending, as
`(product_id, distance)` pairs. -/
def faissSearch (entries : List (ℕ × List ℚ)) (q : List ℚ) (k : ℕ) :
    List (ℕ × ℚ) :=
  let cands := entries.enum.map
    (fun p => Cand.mk p.1 p.2.1 (sqDistL2 q p.2.2))
  ((List.insertionSort candLe cands).take k).map
    (fun c => (c.product_id, c.distance))

/-- The shard visit order built in `search` (util.py lines 720-734).
`none` stands for a falsy or unrecognized `color_category`, which makes
the code search every shard. -/
def searchCategories (color_category : Option Cat)
    (search_similar_colors : Bool) : List Cat :=
  match color_category with
  | some c =>
      if search_similar_colors then
        let cats := [c] ++ get_similar_color_categories c
        if Cat.unknown ∈ cats then cats else cats ++ [Cat.unknown]
      else [c]
  | none => allCats

/-- The per-shard result count (util.py lines 743-747): the full `k` for
the caller's primary category, `max(1, k // 3)` for every other shard,
both capped by the shard population. -/
def categoryK (color_category : Option Cat) (c : Cat) (k n : ℕ) : ℕ :=
  if some c = color_category then min k n else min (max 1 (k / 3)) n

/-- Results contributed by one shard in `search` (util.py lines 737-764):
empty shards are skipped; otherwise the `categoryK` nearest candidates,
tagged with the shard's category and the exact-color-match flag. -/
def searchInCategory (idx : ProdIndex) (q : List ℚ)
    (color_category : Option Cat) (k : ℕ) (c : Cat) : List SearchResult :=
  let entries := idx.shards c
  if entries.length = 0 then []
  else
    (faissSearch entries q (categoryK color_category c k entries.length)).map
      (fun p =>
        { product_id := p.1, distance := p.2, color_category := c,
          is_exact_color_match := decide (some c = color_category) })

/-- Sort key of the final merge (util.py line 767):
`key=lambda x: (not x['is_exact_color_match'], x['distance'])` — exact
color matches first, then ascending distance. -/
def resultLe (a b : SearchResult) : Prop :=
  (a.is_exact_color_match = true ∧ b.is_exact_color_match = false) ∨
  (a.is_exact_color_match = b.is_exact_color_match ∧ a.distance ≤ b.distance)

instance : DecidableRel resultLe := fun a b =>
  inferInstanceAs (Decidable (_ ∨ _))

instance : IsTotal SearchResult resultLe := by
  constructor
  intro a b
  cases ha : a.is_exact_color_match <;> cases hb : b.is_exact_color_match
  · rcases le_total a.distance b.distance with h | h
    · exact Or.inl (Or.inr ⟨ha.trans hb.symm, h⟩)
    · exact Or.inr (Or.inr ⟨hb.trans ha.symm, h⟩)
  · exact Or.inr (Or.inl ⟨hb, ha⟩)
  · exact Or.inl (Or.inl ⟨ha, hb⟩)
  · rcases le_total a.distance b.distance with h | h
    · exact Or.inl (Or.inr ⟨ha.trans hb.symm, h⟩)
    · exact Or.inr (Or.inr ⟨hb.trans ha.symm, h⟩)

instance : IsTrans SearchResult resultLe := by
  constructor
  intro a b c hab hbc
  rcases hab with ⟨ha, hb⟩ | ⟨he, hd⟩
  · rcases hbc with ⟨hb2, _⟩ | ⟨he2, _⟩
    · exact absurd (hb.symm.trans hb2) (by simp)
    · exact Or.inl ⟨ha, he2 ▸ hb⟩
  · rcases hbc with ⟨hb2, hc⟩ | ⟨he2, hd2⟩
    · exact Or.inl ⟨he.trans hb2, hc⟩
    · exact Or.inr ⟨he.trans he2, hd.trans hd2⟩

/-- Embedding of `ColorAwareProductVectorIndex.search` (util.py lines
699-772): fix the query dimension, gather per-shard candidates in visit
order, sort by `(not exact_match, distance)` (a stable sort, as in
Python), and truncate to `k`. -/
def ProdIndex.search (idx : ProdIndex) (q0 : List ℚ)
    (color_category : Option Cat) (k : ℕ) (search_similar_colors : Bool) :
    List SearchResult :=
  let q := fixDim idx.dimension q0
  let all := ((searchCategories color_category search_similar_colors).map
    (searchInCategory idx q color_category k)).flatten
  (List.insertionSort resultLe all).take k

/-!
Evaluation helpers for concrete 2048-dimensional instances.  Full kernel
evaluation of 2048-element vectors is not feasible, so concrete runs are
reduced symbolically: `eVec x` is the 2048-dimensional vector
`(x, 0, …, 0)` and `qZero` the zero query vector.
-/

/-- A concrete 2048-dimensional vector with first coordinate `x`. -/
def eVec (x : ℚ) : List ℚ := x :: List.replicate 2047 0

/-- The concrete 2048-dimensional zero query vector. -/
def qZero : List ℚ := List.replicate 2048 0

/-- Concrete index refuting C1: the same catalog id inserted in the `red`
shard (distance 9 from `qZero`) and in the `pink` shard (distance 1). -/
def idxC1 : ProdIndex :=
  add_product (add_product emptyIndex 1 (eVec 3) .red) 1 (eVec 1) .pink

/-- Concrete index refuting C8: the neighbor shard `pink` holds two
entries, but a `k = 5` search keeps only `max(1, 5 // 3) = 1` of them. -/
def idxC8 : ProdIndex :=
  add_product
    (add_product (add_product emptyIndex 1 (eVec 3) .red) 2 (eVec 1) .pink)
    3 (eVec 2) .pink

/-!
Index rebuild (`build_enhanced_vector_index`, util.py lines 793-857, and
`get_enhanced_vector_index`, lines 859-866).  The module global
`_enhanced_vector_index` is the active snapshot; the catalog read
(`Product.objects.filter(...)` and its iteration) is the only point of the
build that can raise out of the function, modelled as an `Except` input.
Per-product conversion errors are swallowed by the inner
`except: continue` and do not abort the build.
-/

/-- One catalog row as consumed by the rebuild loop. -/
structure CatEntry where
  product_id : ℕ
  visual_embedding : List ℚ
  color_category : Cat

/-- The loop of util.py lines 814-840: fold `add_product` over the catalog
rows, starting from the fresh `ColorAwareProductVectorIndex()`. -/
def loadEntries (es : List CatEntry) : ProdIndex :=
  es.foldl
    (fun i e => add_product i e.product_id e.visual_embedding e.color_category)
    emptyIndex

/-- Embedding of `build_enhanced_vector_index`: the fresh empty index is
assigned to the global (line 805) BEFORE the catalog read (line 808), and
is then populated in place.  Returns the new global together with the
function result (`raise` on failure).  The previous global `g` is
overwritten unconditionally. -/
def build_enhanced_vector_index (g : Option ProdIndex)
    (catalog : Except String (List CatEntry)) :
    Option ProdIndex × Except String ProdIndex :=
  match g, catalog with
  | _, .error e => (some emptyIndex, .error e)
  | _, .ok es => (some (loadEntries es), .ok (loadEntries es))

/-- Embedding of `get_enhanced_vector_index`: build only when the global
is `None`. -/
def get_enhanced_vector_index (g : Option ProdIndex)
    (catalog : Except String (List CatEntry)) :
    Option ProdIndex × Except String ProdIndex :=
  match g with
  | some idx => (some idx, .ok idx)
  | none => build_enhanced_vector_index none catalog

/-- The successive values of the global during a successful rebuild: the
fresh index is populated in place after being published, so every loading
prefix is an observable snapshot. -/
def buildTrace (es : List CatEntry) : List (Option ProdIndex) :=
  (List.range (es.length + 1)).map (fun i => some (loadEntries (es.take i)))

/-- Previously active snapshot for the C2 counterexample: one `red`
product at squared distance 4 from `qZero`. -/
def idxC2 : ProdIndex := add_product emptyIndex 7 (eVec 2) .red

/-!
The visual-search job state machine (`perform_visual_search`, tasks.py
lines 67-143, and the status endpoint `get_visual_search_result`,
views.py lines 577-604).  A `Job` is the persisted `VisualSearchJob` row;
`temp_image` records whether the stored temporary query image file still
exists.  The pipeline body (normalize, classify, embed, search, rank) is
abstracted to its outcome: it either produces serialized results or
raises with a message; opening a deleted `temp_image` raises.
-/

/-- The `VisualSearchJob.STATUS_CHOICES` of models.py. -/
inductive JobStatus where
  | PENDING
  | PROCESSING
  | SUCCESS
  | FAILURE
deriving DecidableEq, Repr

/-- The persisted job row fields the claims are about. -/
structure Job where
  status : JobStatus
  results : Option String
  error_message : Option String
  temp_image : Bool
  completed_at : Bool
deriving DecidableEq, Repr

/-- A job as created by `start_visual_search` (views.py line 566):
default status `PENDING`, a stored temp image, nothing else set. -/
def newJob : Job :=
  { status := .PENDING
    results := none
    error_message := none
    temp_image := true
    completed_at := false }

/-- Outcome of the abstracted pipeline body of the task. -/
inductive PipelineOutcome where
  | ok (results : String)
  | error (msg : String)

/-- The first save of `perform_visual_search` (tasks.py lines 72-74): the
status is set to `PROCESSING` unconditionally — no guard on the current
status. -/
def runTaskStep1 (j : Job) : Job := { j with status := .PROCESSING }

/-- The final saved state of one `perform_visual_search` execution
(tasks.py lines 76-143): reading a deleted temp image raises into the
`except` branch; on success the job is saved and only then the temp image
file is deleted (`save=False`); the failure branch does not delete it. -/
def runTaskFinal (j : Job) (p : PipelineOutcome) : Job :=
  let j1 := runTaskStep1 j
  if j.temp_image then
    match p with
    | .ok r =>
        { j1 with
          status := .SUCCESS
          results := some r
          completed_at := true
          temp_image := false }
    | .error m =>
        { j1 with
          status := .FAILURE
          error_message := some m
          completed_at := true }
  else
    { j1 with
      status := .FAILURE
      error_message := some "temp image missing"
      completed_at := true }

/-- The sequence of saved (observable) job states during one task
execution: after the first save, and after the final save. -/
def runTaskStates (j : Job) (p : PipelineOutcome) : List Job :=
  [runTaskStep1 j, runTaskFinal j p]

/-- Response payload of the status endpoint. -/
inductive Payload where
  | success (results : Option String)
  | failure (error : String)
  | inProgress (status : JobStatus)
deriving DecidableEq, Repr

/-- Embedding of `get_visual_search_result` (views.py lines 577-604): a
pure function of the job row (the handler only reads). -/
def get_visual_search_result (j : Job) : Payload :=
  match j.status with
  | .SUCCESS => .success j.results
  | .FAILURE =>
      .failure (j.error_message.getD "An unknown processing error occurred.")
  | s => .inProgress s

/-- The status endpoint together with the job state it leaves behind:
the handler performs no write. -/
def get_visual_search_result_state (j : Job) : Payload × Job :=
  (get_visual_search_result j, j)

/-- A job that already completed successfully (results saved, temp image
deleted). -/
def jobDone : Job :=
  { status := .SUCCESS
    results := some "r"
    error_message := none
    temp_image := false
    completed_at := true }

/-!
Hybrid ranking (tasks.py lines 115-125).  `visual_score` and the fixed
0.65/0.35 combination are literal translations; the textual score is the
cosine similarity clamp of `calculate_text_similarity` (util.py lines
630-656) with the raw cosine value abstracted as an input (its square
root is not representable in ℚ); the stored scores are
`round(x * 100, 1)`, Python's round-half-to-even modelled exactly on ℚ.
-/

/-- Line 118: `visual_score = max(0.0, 1.0 - (cand.get('distance', 999) /
150.0))`. -/
def visual_score (distance : ℚ) : ℚ := max 0 (1 - distance / 150)

/-- Embedding of `calculate_text_similarity` (util.py lines 630-656): the
cosine similarity of the two embeddings — abstracted here as the input
`raw` — clamped into `[0, 1]` by `max(0.0, min(1.0, similarity))`. -/
def calculate_text_similarity (raw : ℚ) : ℚ := max 0 (min 1 raw)

/-- Line 120: `hybrid_score = (visual_score * 0.65) + (textual_score *
0.35)` — fixed constants, no OCR-confidence scaling, no renormalization. -/
def hybrid_score (visual textual : ℚ) : ℚ :=
  visual * (65 / 100) + textual * (35 / 100)

/-- The per-candidate scoring step of the loop (tasks.py lines 115-123).
`input_text` (the recognized OCR text) is in scope in the task but does
not enter the computation — exactly as in the source. -/
def tasks_candidate_scores (input_text : String) (distance raw_text_sim : ℚ) :
    ℚ × ℚ × ℚ :=
  let visual := visual_score distance
  let textual := calculate_text_similarity raw_text_sim
  (visual, textual, hybrid_score visual textual)

/-- Python's `round` to an integer: round-half-to-even. -/
def roundHalfEven (q : ℚ) : ℤ :=
  if q - ⌊q⌋ < 1 / 2 then ⌊q⌋
  else if 1 / 2 < q - ⌊q⌋ then ⌊q⌋ + 1
  else if ⌊q⌋ % 2 = 0 then ⌊q⌋ else ⌊q⌋ + 1

/-- Python's `round(x, 1)`. -/
def round1 (q : ℚ) : ℚ := (roundHalfEven (q * 10) : ℚ) / 10

/-- The persisted `hybrid_score` (tasks.py line 122):
`round(hybrid_score * 100, 1)`. -/
def reported_hybrid_score (visual textual : ℚ) : ℚ :=
  round1 (hybrid_score visual textual * 100)

/-!
Image normalization (`EnhancedProductPreprocessor`, enhanced_preprocessor
.py lines 45-122).  Pixel contents are abstracted: an image is its
dimensions, and each enhancement stage (background removal, gamma
correction, CLAHE, sharpening) is size-preserving in the source, while
`_final_standardization` resizes to `target_size = (512, 512)`.  Decoding
failures (`_convert_to_pil` returning `None`) are the only failure path
of `process_image` reachable from the input: there is no dimension
check anywhere in the preprocessor.
-/

/-- An image reduced to its dimensions (contents abstracted). -/
structure PImage where
  width : ℕ
  height : ℕ
deriving DecidableEq, Repr

/-- Input to `process_image`: either bytes/objects PIL can decode, or
input that `_convert_to_pil` rejects (decode exception or unsupported
type). -/
inductive PInput where
  | invalid
  | decodable (img : PImage)

/-- Result fields of `process_image` the claims are about. -/
structure ProcessOut where
  success : Bool
  error : Option String
  final_size : Option (ℕ × ℕ)
deriving DecidableEq, Repr

/-- The `target_size` default of `EnhancedProductPreprocessor.__init__`. -/
def target_size : ℕ × ℕ := (512, 512)

/-- Embedding of `_convert_to_pil` (lines 112-122): `None` on anything
that cannot be decoded. -/
def convert_to_pil : PInput → Option PImage
  | .invalid => none
  | .decodable img => some img

/-- Background removal (lines 62-67 and 124-137): runs only when a rembg
session exists and its failure falls back to the unmodified image; the
white-background composite keeps the input size.  The rembg model is
external, so the step is an oracle `bg` with `none` for "no session or
rembg raised". -/
def remove_background_step (bg : PImage → Option PImage) (img : PImage) :
    PImage :=
  match bg img with
  | some removed => removed
  | none => img

/-- Gamma correction (lines 139-151): a per-pixel LUT, size unchanged. -/
def apply_gamma_correction (img : PImage) : PImage := img

/-- CLAHE contrast enhancement (lines 153-162): size unchanged. -/
def enhance_contrast (img : PImage) : PImage := img

/-- UnsharpMask sharpening (line 80): size unchanged. -/
def sharpen (img : PImage) : PImage := img

/-- Embedding of `_final_standardization` (lines 164-167): resize to the
fixed target size. -/
def final_standardization (_img : PImage) : PImage :=
  { width := target_size.1, height := target_size.2 }

/-- Embedding of `process_image` (lines 45-110): decode, optionally
remove the background, enhance, resize.  No dimension validation occurs;
only an undecodable input fails. -/
def process_image (bg : PImage → Option PImage) (input : PInput) :
    ProcessOut :=
  match convert_to_pil input with
  | none =>
      { success := false
        error := some "Invalid image input format."
        final_size := none }
  | some original =>
      let final := final_standardization
        (sharpen (enhance_contrast (apply_gamma_correction
          (remove_background_step bg original))))
      { success := true
        error := none
        final_size := some (final.width, final.height) }

/-!
Color classification (`categorize_by_color`, util.py lines 238-329, and
its helpers `extract_dominant_colors` lines 124-178, `rgb_to_hsv` lines
180-184, `classify_single_color` lines 186-236).  Pixels and colors are
RGB triples of rationals in `[0, 255]`.  The sklearn `KMeans` clusterer
(and the random subsampling applied before it) is external and modelled
as an oracle `km`; `km _ = none` models an exception inside clustering,
which `extract_dominant_colors` catches and turns into `[]`.  KMeans with
`n_clusters=5` yields at most 5 centers (one per distinct label), which
claim C7 takes as a hypothesis on the oracle.
-/

/-- Input to `categorize_by_color`: bytes PIL cannot decode (any raised
exception is caught by the function's outer `except`, line 327), or a
decoded image as its pixel list. -/
inductive ImageInput where
  | undecodable
  | decoded (pixels : List (ℚ × ℚ × ℚ))

/-- The fields of the returned dict the claims are about (`category`,
`confidence`, `colors`); the diagnostic `hsv_colors` / `color_votes`
extras of the success path are omitted. -/
structure ColorResult where
  category : Cat
  confidence : ℚ
  colors : List (ℚ × ℚ × ℚ)
deriving DecidableEq, Repr

/-- The brightness mask of util.py lines 146-147: keep pixels whose mean
channel value is strictly between 20 and 235. -/
def brightness_ok (p : ℚ × ℚ × ℚ) : Bool :=
  decide (20 < (p.1 + p.2.1 + p.2.2) / 3 ∧ (p.1 + p.2.1 + p.2.2) / 3 < 235)

/-- Embedding of `extract_dominant_colors` (util.py lines 124-178): filter
by brightness; with fewer than `n_colors` valid pixels return the first
`n_colors` RAW pixels; otherwise run the clustering oracle (covering the
subsampling and KMeans of lines 155-174), whose exception is caught by
the function's `except` into `[]`. -/
def extract_dominant_colors
    (km : List (ℚ × ℚ × ℚ) → Option (List (ℚ × ℚ × ℚ)))
    (pixels : List (ℚ × ℚ × ℚ)) (n_colors : ℕ) : List (ℚ × ℚ × ℚ) :=
  let filtered := pixels.filter brightness_ok
  if filtered.length < n_colors then pixels.take n_colors
  else
    match km filtered with
    | none => []
    | some centers => centers

/-- Python's `colorsys.rgb_to_hsv` on unit-scaled channels, translated
word for word (the `% 1.0` is `Int.fract`). -/
def colorsys_rgb_to_hsv (r g b : ℚ) : ℚ × ℚ × ℚ :=
  let maxc := max r (max g b)
  let minc := min r (min g b)
  let v := maxc
  if minc = maxc then (0, 0, v)
  else
    let s := (maxc - minc) / maxc
    let rc := (maxc - r) / (maxc - minc)
    let gc := (maxc - g) / (maxc - minc)
    let bc := (maxc - b) / (maxc - minc)
    let h := if r = maxc then bc - gc
      else if g = maxc then 2 + rc - bc
      else 4 + gc - rc
    (Int.fract (h / 6), s, v)

/-- Embedding of `rgb_to_hsv` (util.py lines 180-184): scale channels to
`[0, 1]`, convert, and rescale hue to degrees and saturation/value to
percentages. -/
def rgb_to_hsv (rgb : ℚ × ℚ × ℚ) : ℚ × ℚ × ℚ :=
  let p := colorsys_rgb_to_hsv (rgb.1 / 255) (rgb.2.1 / 255) (rgb.2.2 / 255)
  (p.1 * 360, p.2.1 * 100, p.2.2 * 100)

/-- Embedding of `classify_single_color` (util.py lines 186-236). -/
def classify_single_color (hue saturation value : ℚ) : Cat :=
  if value < 15 then .black
  else if 85 < value ∧ saturation < 15 then .white
  else if saturation < 20 then (if 60 < value then .white else .black)
  else if 10 ≤ hue ∧ hue ≤ 30 ∧ 30 ≤ saturation ∧ 15 ≤ value ∧ value ≤ 65
    then .brown
  else if 345 ≤ hue ∨ hue ≤ 15 then .red
  else if 15 < hue ∧ hue ≤ 45 then .orange
  else if 45 < hue ∧ hue ≤ 75 then .yellow
  else if 75 < hue ∧ hue ≤ 150 then .green
  else if 150 < hue ∧ hue ≤ 250 then .blue
  else if 250 < hue ∧ hue ≤ 300 then .purple
  else if 300 < hue ∧ hue < 345 then .pink
  else .unknown

/-- One `color_votes[category] += weight` update of util.py lines
296-299, on the insertion-ordered association list modelling the Python
dict. -/
def addVote : List (Cat × ℚ) → Cat → ℚ → List (Cat × ℚ)
  | [], cat, w => [(cat, w)]
  | (c, x) :: rest, cat, w =>
      if c = cat then (c, x + w) :: rest
      else (c, x) :: addVote rest cat w

/-- One iteration of the voting loop (util.py lines 289-301): the color
at enumeration index `i` casts weight `1 / (i + 1)` for its
classification. -/
def voteStep (votes : List (Cat × ℚ)) (p : ℕ × (ℚ × ℚ × ℚ)) :
    List (Cat × ℚ) :=
  addVote votes (classify_single_color p.2.1 p.2.2.1 p.2.2.2)
    (1 / ((p.1 : ℚ) + 1))

/-- The `color_votes` dict after the voting loop. -/
def buildVotes (hsv : List (ℚ × ℚ × ℚ)) : List (Cat × ℚ) :=
  hsv.enum.foldl voteStep []

/-- The vote weight of the color at enumeration index `i`:
`1.0 / (i + 1)` (util.py line 291). -/
def wtOf (i : ℕ) : ℚ := 1 / ((i : ℚ) + 1)

/-- The `total_weight` accumulator of the loop:
`sum of 1 / (i + 1) over the enumerated colors`. -/
def totalWeight (n : ℕ) : ℚ := ((List.range n).map wtOf).sum

/-- Python's `max(color_votes, key=color_votes.get)` with its value: the
first maximal entry in dict insertion order (strict improvement only). -/
def bestVote (votes : List (Cat × ℚ)) : Cat × ℚ :=
  votes.foldl (fun best p => if best.2 < p.2 then p else best)
    (Cat.unknown, 0)

/-- The confidence computed on line 306:
`color_votes[best_category] / total_weight`. -/
def voteConfidence (hsv : List (ℚ × ℚ × ℚ)) : ℚ :=
  (bestVote (buildVotes hsv)).2 / totalWeight hsv.length

/-- Sum of the vote values (specification device for the proofs). -/
def sumVals (votes : List (Cat × ℚ)) : ℚ :=
  (votes.map (fun p => p.2)).sum

/-- Embedding of `categorize_by_color` (util.py lines 238-329): decode
failure and empty dominant colors return the default result; otherwise
vote over the HSV conversions and apply the `< 0.3` confidence override,
which resets the confidence to `0.0` (line 311). -/
def categorize_by_color
    (km : List (ℚ × ℚ × ℚ) → Option (List (ℚ × ℚ × ℚ)))
    (input : ImageInput) : ColorResult :=
  match input with
  | .undecodable => ⟨.unknown, 0, []⟩
  | .decoded pixels =>
      let dominant := extract_dominant_colors km pixels 5
      if dominant.isEmpty then ⟨.unknown, 0, []⟩
      else
        let hsv := dominant.map rgb_to_hsv
        let conf := voteConfidence hsv
        if conf < 3 / 10 then ⟨.unknown, 0, dominant⟩
        else ⟨(bestVote (buildVotes hsv)).1, conf, dominant⟩

/-- A clustering oracle that always raises (for concrete witnesses). -/
def kmNone : List (ℚ × ℚ × ℚ) → Option (List (ℚ × ℚ × ℚ)) := fun _ => none

/-- Five identical valid pixels: enough to reach the clustering oracle. -/
def pxMany : List (ℚ × ℚ × ℚ) := List.replicate 5 (100, 0, 0)

lemma sqDistL2_cons (a b : ℚ) (q v : List ℚ) :
    sqDistL2 (a :: q) (b :: v) = (a - b) ^ 2 + sqDistL2 q v := by
  simp [sqDistL2]

lemma sqDistL2_rep (n : ℕ) :
    sqDistL2 (List.replicate n (0 : ℚ)) (List.replicate n 0) = 0 := by
  induction n with
  | zero => simp [sqDistL2]
  | succ m ih =>
      show sqDistL2 (0 :: List.replicate m (0 : ℚ))
        (0 :: List.replicate m 0) = 0
      rw [sqDistL2_cons, ih]
      norm_num

lemma qZero_eq : qZero = (0 : ℚ) :: List.replicate 2047 0 := rfl

lemma sqDistL2_qZero_eVec (x : ℚ) : sqDistL2 qZero (eVec x) = x ^ 2 := by
  rw [qZero_eq, eVec, sqDistL2_cons, sqDistL2_rep]
  ring

lemma eVec_length (x : ℚ) : (eVec x).length = 2048 := by
  rw [eVec, List.length_cons, List.length_replicate]

lemma fixDim_eVec (x : ℚ) : fixDim 2048 (eVec x) = eVec x := by
  rw [fixDim, if_pos (eVec_length x)]

lemma fixDim_qZero : fixDim 2048 qZero = qZero := by
  rw [fixDim, if_pos]
  rw [qZero]
  exact List.length_replicate 2048 0

lemma add_product_shards (idx : ProdIndex) (pid : ℕ) (v : List ℚ)
    (cat c : Cat) :
    (add_product idx pid v cat).shards c =
      if c = cat then idx.shards c ++ [(pid, fixDim idx.dimension v)]
      else idx.shards c := rfl

lemma add_product_dim (idx : ProdIndex) (pid : ℕ) (v : List ℚ) (cat : Cat) :
    (add_product idx pid v cat).dimension = idx.dimension := rfl

lemma faissSearch_nil (q : List ℚ) (k : ℕ) : faissSearch [] q k = [] := by
  simp [faissSearch, List.insertionSort]

lemma faissSearch_one (p : ℕ) (v q : List ℚ) (k : ℕ) :
    faissSearch [(p, v)] q (k + 1) = [(p, sqDistL2 q v)] := by
  simp [faissSearch, List.insertionSort]

lemma searchInCategory_eval (idx : ProdIndex) (q : List ℚ)
    (color_category : Option Cat) (k : ℕ) (c : Cat)
    (entries : List (ℕ × List ℚ)) (h : idx.shards c = entries) :
    searchInCategory idx q color_category k c =
      (if entries.length = 0 then []
       else
        (faissSearch entries q
            (categoryK color_category c k entries.length)).map
          (fun p =>
            { product_id := p.1, distance := p.2, color_category := c,
              is_exact_color_match :=
                decide (some c = color_category) })) := by
  rw [searchInCategory, h]

lemma faissSearch_two_one (p1 p2 : ℕ) (v1 v2 q : List ℚ)
    (h : sqDistL2 q v1 < sqDistL2 q v2) :
    faissSearch [(p1, v1), (p2, v2)] q 1 = [(p1, sqDistL2 q v1)] := by
  have he : List.enum [(p1, v1), (p2, v2)] =
      [(0, (p1, v1)), (1, (p2, v2))] := rfl
  rw [faissSearch]
  rw [he]
  simp only [List.map_cons, List.map_nil, List.insertionSort,
    List.orderedInsert]
  have hc : candLe (Cand.mk 0 p1 (sqDistL2 q v1))
      (Cand.mk 1 p2 (sqDistL2 q v2)) := Or.inl h
  rw [if_pos hc]
  rfl

lemma mem_enumFrom_snd {α : Type} :
    ∀ (l : List α) (n : ℕ) (p : ℕ × α), p ∈ l.enumFrom n → p.2 ∈ l := by
  intro l
  induction l with
  | nil => intro n p hp; simp [List.enumFrom] at hp
  | cons x xs ih =>
      intro n p hp
      rw [List.enumFrom] at hp
      rcases List.mem_cons.mp hp with h | h
      · rw [h]
        exact List.mem_cons_self x xs
      · exact List.mem_cons_of_mem x (ih (n + 1) p h)

lemma exists_enumFrom_of_mem {α : Type} :
    ∀ (l : List α) (n : ℕ) (a : α), a ∈ l →
      ∃ p ∈ l.enumFrom n, p.2 = a := by
  intro l
  induction l with
  | nil => intro n a ha; simp at ha
  | cons x xs ih =>
      intro n a ha
      rcases List.mem_cons.mp ha with h | h
      · exact ⟨(n, x), List.mem_cons_self _ _, h.symm⟩
      · rcases ih (n + 1) a h with ⟨p, hp, hpa⟩
        exact ⟨p, List.mem_cons_of_mem _ hp, hpa⟩

lemma idxC1_shards_red : idxC1.shards .red = [(1, eVec 3)] := by
  rw [idxC1, add_product_shards, if_neg (by decide : ¬ (Cat.red = Cat.pink)),
    add_product_shards, if_pos rfl]
  show [] ++ [(1, fixDim 2048 (eVec 3))] = _
  rw [List.nil_append, fixDim_eVec]

lemma idxC1_shards_pink : idxC1.shards .pink = [(1, eVec 1)] := by
  rw [idxC1, add_product_shards, if_pos rfl, add_product_shards,
    if_neg (by decide : ¬ (Cat.pink = Cat.red))]
  show [] ++ [(1, fixDim 2048 (eVec 1))] = _
  rw [List.nil_append, fixDim_eVec]

lemma idxC1_shards_orange : idxC1.shards .orange = [] := by
  rw [idxC1, add_product_shards,
    if_neg (by decide : ¬ (Cat.orange = Cat.pink)),
    add_product_shards, if_neg (by decide : ¬ (Cat.orange = Cat.red))]
  rfl

lemma idxC1_shards_unknown : idxC1.shards .unknown = [] := by
  rw [idxC1, add_product_shards,
    if_neg (by decide : ¬ (Cat.unknown = Cat.pink)),
    add_product_shards, if_neg (by decide : ¬ (Cat.unknown = Cat.red))]
  rfl

lemma sicC1_red : searchInCategory idxC1 qZero (some .red) 5 .red =
    [⟨1, 9, .red, true⟩] := by
  rw [searchInCategory_eval idxC1 qZero (some .red) 5 .red [(1, eVec 3)]
    idxC1_shards_red]
  rw [if_neg (by decide : ¬ ([(1, eVec 3)].length = 0))]
  rw [show categoryK (some Cat.red) Cat.red 5 [(1, eVec 3)].length = 0 + 1
    from by decide]
  rw [faissSearch_one, sqDistL2_qZero_eVec]
  decide

lemma sicC1_pink : searchInCategory idxC1 qZero (some .red) 5 .pink =
    [⟨1, 1, .pink, false⟩] := by
  rw [searchInCategory_eval idxC1 qZero (some .red) 5 .pink [(1, eVec 1)]
    idxC1_shards_pink]
  rw [if_neg (by decide : ¬ ([(1, eVec 1)].length = 0))]
  rw [show categoryK (some Cat.red) Cat.pink 5 [(1, eVec 1)].length = 0 + 1
    from by decide]
  rw [faissSearch_one, sqDistL2_qZero_eVec]
  decide

lemma sicC1_orange : searchInCategory idxC1 qZero (some .red) 5 .orange =
    [] := by
  rw [searchInCategory_eval idxC1 qZero (some .red) 5 .orange []
    idxC1_shards_orange]
  rfl

lemma sicC1_unknown : searchInCategory idxC1 qZero (some .red) 5 .unknown =
    [] := by
  rw [searchInCategory_eval idxC1 qZero (some .red) 5 .unknown []
    idxC1_shards_unknown]
  rfl

lemma searchC1_eval : ProdIndex.search idxC1 qZero (some .red) 5 true =
    [⟨1, 9, .red, true⟩, ⟨1, 1, .pink, false⟩] := by
  rw [ProdIndex.search]
  rw [show idxC1.dimension = 2048 from rfl, fixDim_qZero]
  rw [show searchCategories (some Cat.red) true =
    [Cat.red, Cat.pink, Cat.orange, Cat.unknown] from rfl]
  rw [List.map_cons, List.map_cons, List.map_cons, List.map_cons,
    List.map_nil]
  rw [sicC1_red, sicC1_pink, sicC1_orange, sicC1_unknown]
  decide

lemma idxC8_shards_red : idxC8.shards .red = [(1, eVec 3)] := by
  rw [idxC8, add_product_shards, if_neg (by decide : ¬ (Cat.red = Cat.pink)),
    add_product_shards, if_neg (by decide : ¬ (Cat.red = Cat.pink)),
    add_product_shards, if_pos rfl]
  show [] ++ [(1, fixDim 2048 (eVec 3))] = _
  rw [List.nil_append, fixDim_eVec]

lemma idxC8_shards_pink : idxC8.shards .pink = [(2, eVec 1), (3, eVec 2)] := by
  rw [idxC8, add_product_shards, if_pos rfl, add_product_shards, if_pos rfl,
    add_product_shards, if_neg (by decide : ¬ (Cat.pink = Cat.red))]
  show ([] ++ [(2, fixDim 2048 (eVec 1))]) ++ [(3, fixDim 2048 (eVec 2))] = _
  rw [List.nil_append, fixDim_eVec, fixDim_eVec]
  rfl

lemma idxC8_shards_orange : idxC8.shards .orange = [] := by
  rw [idxC8, add_product_shards,
    if_neg (by decide : ¬ (Cat.orange = Cat.pink)),
    add_product_shards, if_neg (by decide : ¬ (Cat.orange = Cat.pink)),
    add_product_shards, if_neg (by decide : ¬ (Cat.orange = Cat.red))]
  rfl

lemma idxC8_shards_unknown : idxC8.shards .unknown = [] := by
  rw [idxC8, add_product_shards,
    if_neg (by decide : ¬ (Cat.unknown = Cat.pink)),
    add_product_shards, if_neg (by decide : ¬ (Cat.unknown = Cat.pink)),
    add_product_shards, if_neg (by decide : ¬ (Cat.unknown = Cat.red))]
  rfl

lemma sicC8_red : searchInCategory idxC8 qZero (some .red) 5 .red =
    [⟨1, 9, .red, true⟩] := by
  rw [searchInCategory_eval idxC8 qZero (some .red) 5 .red [(1, eVec 3)]
    idxC8_shards_red]
  rw [if_neg (by decide : ¬ ([(1, eVec 3)].length = 0))]
  rw [show categoryK (some Cat.red) Cat.red 5 [(1, eVec 3)].length = 0 + 1
    from by decide]
  rw [faissSearch_one, sqDistL2_qZero_eVec]
  decide

lemma sicC8_pink : searchInCategory idxC8 qZero (some .red) 5 .pink =
    [⟨2, 1, .pink, false⟩] := by
  rw [searchInCategory_eval idxC8 qZero (some .red) 5 .pink
    [(2, eVec 1), (3, eVec 2)] idxC8_shards_pink]
  rw [if_neg (by decide : ¬ ([(2, eVec 1), (3, eVec 2)].length = 0))]
  rw [show categoryK (some Cat.red) Cat.pink 5
    [(2, eVec 1), (3, eVec 2)].length = 1 from by decide]
  rw [faissSearch_two_one 2 3 (eVec 1) (eVec 2) qZero
    (by rw [sqDistL2_qZero_eVec, sqDistL2_qZero_eVec]; norm_num)]
  rw [sqDistL2_qZero_eVec]
  decide

lemma sicC8_orange : searchInCategory idxC8 qZero (some .red) 5 .orange =
    [] := by
  rw [searchInCategory_eval idxC8 qZero (some .red) 5 .orange []
    idxC8_shards_orange]
  rfl

lemma sicC8_unknown : searchInCategory idxC8 qZero (some .red) 5 .unknown =
    [] := by
  rw [searchInCategory_eval idxC8 qZero (some .red) 5 .unknown []
    idxC8_shards_unknown]
  rfl

lemma searchC8_eval : ProdIndex.search idxC8 qZero (some .red) 5 true =
    [⟨1, 9, .red, true⟩, ⟨2, 1, .pink, false⟩] := by
  rw [ProdIndex.search]
  rw [show idxC8.dimension = 2048 from rfl, fixDim_qZero]
  rw [show searchCategories (some Cat.red) true =
    [Cat.red, Cat.pink, Cat.orange, Cat.unknown] from rfl]
  rw [List.map_cons, List.map_cons, List.map_cons, List.map_cons,
    List.map_nil]
  rw [sicC8_red, sicC8_pink, sicC8_orange, sicC8_unknown]
  decide

lemma candLe_dist_le {a b : Cand} (h : candLe a b) :
    a.distance ≤ b.distance := by
  rcases h with h | ⟨h, _⟩
  · exact h.le
  · exact h.le

/-- Full behaviour of one FAISS flat-shard probe: result count, sortedness
by distance, origin of every candidate, and the k-smallest property. -/
lemma faissSearch_spec (entries : List (ℕ × List ℚ)) (q : List ℚ) (m : ℕ) :
    (faissSearch entries q m).length = min m entries.length ∧
    List.Pairwise (fun a b : ℕ × ℚ => a.2 ≤ b.2) (faissSearch entries q m) ∧
    (∀ r ∈ faissSearch entries q m,
       ∃ e ∈ entries, e.1 = r.1 ∧ r.2 = sqDistL2 q e.2) ∧
    (∀ r ∈ faissSearch entries q m, ∀ e ∈ entries,
       sqDistL2 q e.2 < r.2 →
         ∃ u ∈ faissSearch entries q m,
           u.1 = e.1 ∧ u.2 = sqDistL2 q e.2) := by
  simp only [faissSearch]
  refine ⟨?_, ?_, ?_, ?_⟩
  · rw [List.length_map, List.length_take,
      (List.perm_insertionSort candLe _).length_eq, List.length_map,
      List.enum_length]
  · refine List.pairwise_map.mpr ?_
    exact ((List.sorted_insertionSort candLe _).sublist
      (List.take_sublist m _)).imp (fun h => candLe_dist_le h)
  · intro r hr
    rcases List.mem_map.mp hr with ⟨cd, hcd, hcdr⟩
    have hcs : cd ∈ List.insertionSort candLe _ := List.mem_of_mem_take hcd
    rcases List.mem_map.mp ((List.mem_insertionSort candLe).mp hcs)
      with ⟨p, hp, hpc⟩
    refine ⟨p.2, mem_enumFrom_snd entries 0 p hp, ?_, ?_⟩
    · rw [← hcdr, ← hpc]
    · rw [← hcdr, ← hpc]
  · intro r hr e he hd
    rcases List.mem_map.mp hr with ⟨cd, hcd, hcdr⟩
    rcases exists_enumFrom_of_mem entries 0 e he with ⟨p, hp, hpe⟩
    have hce : Cand.mk p.1 p.2.1 (sqDistL2 q p.2.2) ∈
        List.insertionSort candLe
          (entries.enum.map (fun p => Cand.mk p.1 p.2.1 (sqDistL2 q p.2.2))) :=
      (List.mem_insertionSort candLe).mpr (List.mem_map_of_mem _ hp)
    have hsplit := (List.take_append_drop m (List.insertionSort candLe
      (entries.enum.map
        (fun p => Cand.mk p.1 p.2.1 (sqDistL2 q p.2.2))))).symm
    rcases List.mem_append.mp (hsplit ▸ hce) with hin | hout
    · refine ⟨(p.2.1, sqDistL2 q p.2.2), List.mem_map.mpr ⟨_, hin, rfl⟩,
        ?_, ?_⟩
      · rw [hpe]
      · rw [hpe]
    · exfalso
      have hpw : List.Pairwise candLe
          ((List.insertionSort candLe (entries.enum.map
            (fun p => Cand.mk p.1 p.2.1 (sqDistL2 q p.2.2)))).take m ++
           (List.insertionSort candLe (entries.enum.map
            (fun p => Cand.mk p.1 p.2.1 (sqDistL2 q p.2.2)))).drop m) := by
        rw [List.take_append_drop]
        exact List.sorted_insertionSort candLe _
      have hle := (List.pairwise_append.mp hpw).2.2 cd hcd _ hout
      have : cd.distance ≤ sqDistL2 q p.2.2 := candLe_dist_le hle
      rw [hpe] at this
      rw [← hcdr] at hd
      exact absurd hd (not_lt.mpr this)

/-- C1, counterexample.  With catalog id 1 inserted both in the `red`
shard (squared distance 9 to the query) and in the `pink` shard (squared
distance 1), a `k = 5` search with primary category `red` returns the
exact-color hit first: the result list is not sorted by non-decreasing
distance, and the same catalog id appears twice (no de-duplication). -/
theorem claim_C1_counterexample :
    ProdIndex.search idxC1 qZero (some Cat.red) 5 true =
      [⟨1, 9, Cat.red, true⟩, ⟨1, 1, Cat.pink, false⟩] ∧
    ¬ ((ProdIndex.search idxC1 qZero (some Cat.red) 5 true).map
        SearchResult.distance).Sorted (· ≤ ·) ∧
    ¬ ((ProdIndex.search idxC1 qZero (some Cat.red) 5 true).map
        SearchResult.product_id).Nodup := by
  refine ⟨searchC1_eval, ?_, ?_⟩ <;> rw [searchC1_eval] <;> decide

/-- C1 (amended): `ColorAwareProductVectorIndex.search` returns at most
`k` results, sorted by the key `(not is_exact_color_match, distance)` —
exact-color-match hits first, each group in non-decreasing distance.  It
does not de-duplicate by catalog id, and the merged list is not globally
sorted by distance (see the counterexample). -/
theorem claim_C1 (idx : ProdIndex) (q : List ℚ) (cc : Option Cat) (k : ℕ)
    (s : Bool) :
    (ProdIndex.search idx q cc k s).length ≤ k ∧
    List.Sorted resultLe (ProdIndex.search idx q cc k s) := by
  constructor
  · simp only [ProdIndex.search]
    exact List.length_take_le k _
  · simp only [ProdIndex.search]
    exact (List.sorted_insertionSort resultLe _).sublist
      (List.take_sublist k _)

/-- C1, witness for the amended theorem at a concrete instance. -/
theorem claim_C1_witness :
    (ProdIndex.search idxC1 qZero (some Cat.red) 5 true).length ≤ 5 ∧
    List.Sorted resultLe (ProdIndex.search idxC1 qZero (some Cat.red)
      5 true) :=
  claim_C1 idxC1 qZero (some Cat.red) 5 true

/-- C8, counterexample.  With `k = 5` and a primary category of `red`,
the neighbor shard `pink` holding 2 entries (fewer than `k`) contributes
only `max(1, 5 // 3) = 1` candidate — not the 2 the claim requires — and
catalog id 3 of the `pink` shard is absent from the merged output. -/
theorem claim_C8_counterexample :
    (idxC8.shards Cat.pink).length = 2 ∧ (2 : ℕ) < 5 ∧
    (searchInCategory idxC8 qZero (some Cat.red) 5 Cat.pink).length = 1 ∧
    (ProdIndex.search idxC8 qZero (some Cat.red) 5 true).map
        SearchResult.product_id = [1, 2] := by
  refine ⟨?_, by norm_num, ?_, ?_⟩
  · rw [idxC8_shards_pink]
    rfl
  · rw [sicC8_pink]
    rfl
  · rw [searchC8_eval]
    rfl

/-- C8 (amended): for every searched shard `c`, the index keeps exactly
`categoryK` candidates — `min(k, n)` from the caller's primary shard but
only `min(max(1, k // 3), n)` from every other searched shard — sorted by
non-decreasing squared L2 distance; every candidate's distance is the
exact squared L2 distance from the query to a stored vector of that
shard, and any stored vector strictly closer than a kept candidate is
itself kept (the per-shard selection is the distance minimum). -/
theorem claim_C8 (idx : ProdIndex) (q : List ℚ) (cat : Cat) (k : ℕ)
    (c : Cat) (hc : c ∈ searchCategories (some cat) true)
    (hne : idx.shards c ≠ []) :
    (searchInCategory idx q (some cat) k c).length
        = categoryK (some cat) c k (idx.shards c).length ∧
    List.Pairwise (fun a b : SearchResult => a.distance ≤ b.distance)
        (searchInCategory idx q (some cat) k c) ∧
    (∀ r ∈ searchInCategory idx q (some cat) k c,
        ∃ e ∈ idx.shards c, e.1 = r.product_id ∧
          r.distance = sqDistL2 q e.2) ∧
    (∀ r ∈ searchInCategory idx q (some cat) k c,
      ∀ e ∈ idx.shards c, sqDistL2 q e.2 < r.distance →
        ∃ u ∈ searchInCategory idx q (some cat) k c,
          u.product_id = e.1 ∧ u.distance = sqDistL2 q e.2) := by
  have hlen0 : ¬ ((idx.shards c).length = 0) := fun h =>
    hne (List.length_eq_zero.mp h)
  have hspec := faissSearch_spec (idx.shards c) q
    (categoryK (some cat) c k (idx.shards c).length)
  rcases hspec with ⟨hlen, hpw, horig, hmin⟩
  have hck : categoryK (some cat) c k (idx.shards c).length ≤
      (idx.shards c).length := by
    rw [categoryK]
    rcases em (some c = some cat) with h | h
    · rw [if_pos h]; exact Nat.min_le_right _ _
    · rw [if_neg h]; exact Nat.min_le_right _ _
  refine ⟨?_, ?_, ?_, ?_⟩
  · rw [searchInCategory, if_neg hlen0, List.length_map, hlen]
    exact Nat.min_eq_left hck
  · rw [searchInCategory, if_neg hlen0]
    exact List.pairwise_map.mpr (hpw.imp (fun h => h))
  · rw [searchInCategory, if_neg hlen0]
    intro r hr
    rcases List.mem_map.mp hr with ⟨p, hp, hpr⟩
    rcases horig p hp with ⟨e, he, he1, he2⟩
    refine ⟨e, he, ?_, ?_⟩
    · rw [← hpr]; exact he1
    · rw [← hpr]; exact he2
  · rw [searchInCategory, if_neg hlen0]
    intro r hr e he hd
    rcases List.mem_map.mp hr with ⟨p, hp, hpr⟩
    rw [← hpr] at hd
    rcases hmin p hp e he hd with ⟨u, hu, hu1, hu2⟩
    exact ⟨_, List.mem_map_of_mem _ hu, hu1, hu2⟩

/-- C8, witness for the amended theorem: the `pink` neighbor shard of the
concrete index, probed with `k = 5` and primary category `red`. -/
theorem claim_C8_witness :
    (searchInCategory idxC8 qZero (some Cat.red) 5 Cat.pink).length
        = categoryK (some Cat.red) Cat.pink 5
            (idxC8.shards Cat.pink).length ∧
    List.Pairwise (fun a b : SearchResult => a.distance ≤ b.distance)
        (searchInCategory idxC8 qZero (some Cat.red) 5 Cat.pink) ∧
    (∀ r ∈ searchInCategory idxC8 qZero (some Cat.red) 5 Cat.pink,
        ∃ e ∈ idxC8.shards Cat.pink, e.1 = r.product_id ∧
          r.distance = sqDistL2 qZero e.2) ∧
    (∀ r ∈ searchInCategory idxC8 qZero (some Cat.red) 5 Cat.pink,
      ∀ e ∈ idxC8.shards Cat.pink, sqDistL2 qZero e.2 < r.distance →
        ∃ u ∈ searchInCategory idxC8 qZero (some Cat.red) 5 Cat.pink,
          u.product_id = e.1 ∧ u.distance = sqDistL2 qZero e.2) :=
  claim_C8 idxC8 qZero Cat.red 5 Cat.pink (by decide)
    (by rw [idxC8_shards_pink]; exact List.cons_ne_nil _ _)

lemma sic_of_shards_nil (idx : ProdIndex) (q : List ℚ)
    (cc : Option Cat) (k : ℕ) (c : Cat) (h : idx.shards c = []) :
    searchInCategory idx q cc k c = [] := by
  rw [searchInCategory, h]
  rfl

lemma search_emptyIndex :
    ProdIndex.search emptyIndex qZero (some .red) 5 true = [] := by
  rw [ProdIndex.search]
  rw [show emptyIndex.dimension = 2048 from rfl, fixDim_qZero]
  rw [show searchCategories (some Cat.red) true =
    [Cat.red, Cat.pink, Cat.orange, Cat.unknown] from rfl]
  rw [List.map_cons, List.map_cons, List.map_cons, List.map_cons,
    List.map_nil]
  rw [sic_of_shards_nil emptyIndex qZero (some .red) 5 .red rfl,
    sic_of_shards_nil emptyIndex qZero (some .red) 5 .pink rfl,
    sic_of_shards_nil emptyIndex qZero (some .red) 5 .orange rfl,
    sic_of_shards_nil emptyIndex qZero (some .red) 5 .unknown rfl]
  rfl

lemma idxC2_shards_red : idxC2.shards .red = [(7, eVec 2)] := by
  rw [idxC2, add_product_shards, if_pos rfl]
  show [] ++ [(7, fixDim 2048 (eVec 2))] = _
  rw [List.nil_append, fixDim_eVec]

lemma idxC2_shards_other (c : Cat) (h : ¬ (c = Cat.red)) :
    idxC2.shards c = [] := by
  rw [idxC2, add_product_shards, if_neg h]
  rfl

lemma sicC2_red : searchInCategory idxC2 qZero (some .red) 5 .red =
    [⟨7, 4, .red, true⟩] := by
  rw [searchInCategory_eval idxC2 qZero (some .red) 5 .red [(7, eVec 2)]
    idxC2_shards_red]
  rw [if_neg (by decide : ¬ ([(7, eVec 2)].length = 0))]
  rw [show categoryK (some Cat.red) Cat.red 5 [(7, eVec 2)].length = 0 + 1
    from by decide]
  rw [faissSearch_one, sqDistL2_qZero_eVec]
  decide

lemma searchC2_eval : ProdIndex.search idxC2 qZero (some .red) 5 true =
    [⟨7, 4, .red, true⟩] := by
  rw [ProdIndex.search]
  rw [show idxC2.dimension = 2048 from rfl, fixDim_qZero]
  rw [show searchCategories (some Cat.red) true =
    [Cat.red, Cat.pink, Cat.orange, Cat.unknown] from rfl]
  rw [List.map_cons, List.map_cons, List.map_cons, List.map_cons,
    List.map_nil]
  rw [sicC2_red,
    sic_of_shards_nil idxC2 qZero (some .red) 5 .pink
      (idxC2_shards_other .pink (by decide)),
    sic_of_shards_nil idxC2 qZero (some .red) 5 .orange
      (idxC2_shards_other .orange (by decide)),
    sic_of_shards_nil idxC2 qZero (some .red) 5 .unknown
      (idxC2_shards_other .unknown (by decide))]
  decide

lemma loadEntries_fold_shards :
    ∀ (es : List CatEntry) (idx : ProdIndex) (c : Cat),
      (es.foldl (fun i e =>
        add_product i e.product_id e.visual_embedding e.color_category)
        idx).shards c =
      idx.shards c ++ (es.filter (fun e => e.color_category = c)).map
        (fun e => (e.product_id, fixDim idx.dimension e.visual_embedding)) := by
  intro es
  induction es with
  | nil => intro idx c; simp
  | cons e rest ih =>
      intro idx c
      rw [List.foldl_cons]
      rw [ih (add_product idx e.product_id e.visual_embedding
        e.color_category) c]
      rw [add_product_shards, add_product_dim, List.filter_cons]
      by_cases h : e.color_category = c
      · rw [if_pos (decide_eq_true h), if_pos h.symm]
        rw [List.map_cons, List.append_assoc, List.singleton_append]
      · rw [if_neg (fun hd => h (of_decide_eq_true hd)),
          if_neg (fun hc => h hc.symm)]

lemma loadEntries_shards (es : List CatEntry) (c : Cat) :
    (loadEntries es).shards c =
      (es.filter (fun e => e.color_category = c)).map
        (fun e => (e.product_id, fixDim 2048 e.visual_embedding)) := by
  rw [loadEntries, loadEntries_fold_shards]
  rw [show emptyIndex.shards c = [] from rfl, List.nil_append]
  rfl

/-- C2, counterexample.  A rebuild whose catalog read fails replaces the
previously active snapshot (holding product 7) with the fresh empty
index: a subsequent search is served by the empty index and returns
nothing, while the previous snapshot would have returned product 7.  The
swap is not atomic and the previous snapshot is not retained on
failure. -/
theorem claim_C2_counterexample :
    build_enhanced_vector_index (some idxC2) (.error "database unavailable")
        = (some emptyIndex, .error "database unavailable") ∧
    ProdIndex.search idxC2 qZero (some Cat.red) 5 true =
      [⟨7, 4, Cat.red, true⟩] ∧
    ProdIndex.search emptyIndex qZero (some Cat.red) 5 true = [] :=
  ⟨rfl, searchC2_eval, search_emptyIndex⟩

/-- C2 (amended): `build_enhanced_vector_index` publishes a fresh empty
index to the global before reading the catalog and populates it in
place.  A failed catalog read leaves that fresh empty index active
(regardless of the previous snapshot) and re-raises; a successful build
leaves the fully loaded index active, with each shard holding exactly the
catalog rows of its color category in catalog order — but every loading
prefix is a published intermediate state of the global, observable by an
interleaved search. -/
theorem claim_C2 (g : Option ProdIndex) (msg : String)
    (es : List CatEntry) :
    build_enhanced_vector_index g (.error msg) =
      (some emptyIndex, .error msg) ∧
    build_enhanced_vector_index g (.ok es) =
      (some (loadEntries es), .ok (loadEntries es)) ∧
    get_enhanced_vector_index (some (loadEntries es)) (.error msg) =
      (some (loadEntries es), .ok (loadEntries es)) ∧
    (∀ c, (loadEntries es).shards c =
      (es.filter (fun e => e.color_category = c)).map
        (fun e => (e.product_id, fixDim 2048 e.visual_embedding))) ∧
    (∀ i, i ≤ es.length →
      some (loadEntries (es.take i)) ∈ buildTrace es) := by
  refine ⟨rfl, rfl, rfl, fun c => loadEntries_shards es c, ?_⟩
  intro i hi
  exact List.mem_map_of_mem _ (List.mem_range.mpr (Nat.lt_succ_of_le hi))

/-- C2, witness for the amended theorem at a concrete previous snapshot,
failure message and one-entry catalog. -/
theorem claim_C2_witness :
    build_enhanced_vector_index (some idxC2) (.error "down") =
      (some emptyIndex, .error "down") ∧
    some (loadEntries (([⟨11, eVec 1, Cat.red⟩] : List CatEntry).take 1)) ∈
      buildTrace [⟨11, eVec 1, Cat.red⟩] := by
  have h := claim_C2 (some idxC2) "down" [⟨11, eVec 1, Cat.red⟩]
  exact ⟨h.1, h.2.2.2.2 1 (Nat.le_of_eq (List.length_singleton _).symm)⟩

/-- C3, counterexample.  `perform_visual_search` sets the status to
`PROCESSING` without checking the current status: re-delivered on a job
already in the terminal `SUCCESS` state, the task's saved states are
`PROCESSING` and then `FAILURE` (the temp image was already deleted) —
the job leaves its terminal state. -/
theorem claim_C3_counterexample :
    jobDone.status = JobStatus.SUCCESS ∧
    (runTaskStates jobDone (.ok "r2")).map Job.status =
      [JobStatus.PROCESSING, JobStatus.FAILURE] := by decide

/-- C3 (amended): within a single execution of `perform_visual_search`
the job is saved as `PROCESSING` and then as exactly one terminal state,
and the status endpoint is a pure read (it returns a payload computed
from the job row and leaves the row unchanged, so repeated reads return
the same payload).  The task itself does not guard on the current
status, so terminal states are stable only while the task is not
re-invoked on the job (see the counterexample). -/
theorem claim_C3 (j : Job) (p : PipelineOutcome) :
    ((runTaskStates j p).map Job.status =
        [JobStatus.PROCESSING, JobStatus.SUCCESS] ∨
     (runTaskStates j p).map Job.status =
        [JobStatus.PROCESSING, JobStatus.FAILURE]) ∧
    ((runTaskFinal j p).status = JobStatus.SUCCESS ∨
     (runTaskFinal j p).status = JobStatus.FAILURE) ∧
    get_visual_search_result_state j = (get_visual_search_result j, j) := by
  refine ⟨?_, ?_, rfl⟩ <;>
    cases ht : j.temp_image <;> cases p <;>
      simp [runTaskStates, runTaskFinal, runTaskStep1, ht]

/-- C4, counterexample.  A job failing its pipeline reaches the terminal
`FAILURE` state with the stored temporary query image still present: the
`except` branch of `perform_visual_search` never calls
`temp_image.delete`. -/
theorem claim_C4_counterexample :
    (runTaskFinal newJob (.error "normalize failed")).status =
      JobStatus.FAILURE ∧
    (runTaskFinal newJob (.error "normalize failed")).temp_image =
      true := by decide

/-- C4 (amended): the stored temporary query image is deleted when the
job reaches `SUCCESS` (tasks.py line 131, after the final save) but
retained when the job reaches `FAILURE` — release is not independent of
the outcome. -/
theorem claim_C4 (j : Job) (p : PipelineOutcome)
    (h : j.temp_image = true) :
    ((runTaskFinal j p).status = JobStatus.SUCCESS →
      (runTaskFinal j p).temp_image = false) ∧
    ((runTaskFinal j p).status = JobStatus.FAILURE →
      (runTaskFinal j p).temp_image = true) := by
  cases p <;> simp [runTaskFinal, runTaskStep1, h]

/-- C4, witness: a fresh job run to success has its image deleted; run
to failure it keeps it. -/
theorem claim_C4_witness :
    (runTaskFinal newJob (.ok "r")).temp_image = false ∧
    (runTaskFinal newJob (.error "e")).temp_image = true :=
  ⟨(claim_C4 newJob (.ok "r") rfl).1 rfl,
   (claim_C4 newJob (.error "e") rfl).2 rfl⟩

/-- C5, counterexample.  The hybrid weights of tasks.py line 120 are the
fixed constants 0.65/0.35: the candidate scores are identical for empty
and for rich OCR text, and the weight effectively applied to the text
similarity equals the base constant 0.35 — it is not reduced for empty
OCR text, refuting the confidence-adaptive weighting. -/
theorem claim_C5_counterexample :
    tasks_candidate_scores "" 30 (1 / 2) =
      tasks_candidate_scores "BRAND Cola 330ml 1234" 30 (1 / 2) ∧
    hybrid_score 0 1 - hybrid_score 0 0 = 35 / 100 ∧
    ¬ (hybrid_score 0 1 - hybrid_score 0 0 < 35 / 100) := by
  refine ⟨rfl, by norm_num [hybrid_score], by norm_num [hybrid_score]⟩

/-- C5 (amended): the hybrid combination uses the fixed weights 0.65
(visual) and 0.35 (text); it does not depend on the recognized OCR text,
applies no OCR-confidence scaling and no high-visual-similarity boost,
and needs no renormalization since the constants already sum to 1. -/
theorem claim_C5 (s1 s2 : String) (d raw v t : ℚ) :
    tasks_candidate_scores s1 d raw = tasks_candidate_scores s2 d raw ∧
    hybrid_score v 1 - hybrid_score v 0 = 35 / 100 ∧
    hybrid_score 1 t - hybrid_score 0 t = 65 / 100 ∧
    (65 : ℚ) / 100 + 35 / 100 = 1 := by
  refine ⟨rfl, ?_, ?_, by norm_num⟩ <;> simp [hybrid_score]

/-- C9, counterexample.  A decodable 10×10-pixel input is processed
successfully by `EnhancedProductPreprocessor.process_image` — resized to
512×512 with no error — because the preprocessor performs no minimum
dimension check. -/
theorem claim_C9_counterexample :
    (process_image (fun _ => none) (.decodable ⟨10, 10⟩)).success = true ∧
    (process_image (fun _ => none) (.decodable ⟨10, 10⟩)).error = none ∧
    (process_image (fun _ => none) (.decodable ⟨10, 10⟩)).final_size =
      some (512, 512) := by decide

/-- C9 (amended): `process_image` fails (success `False`, error
`'Invalid image input format.'`) exactly on inputs `_convert_to_pil`
cannot decode; every decodable image, of any dimensions — 10×10
included — is accepted and resized to the 512×512 target.  (The `<50px`
dimension check of the spec exists only in the management commands, not
in the preprocessor.) -/
theorem claim_C9 (bg : PImage → Option PImage) :
    (process_image bg .invalid).success = false ∧
    (process_image bg .invalid).error =
      some "Invalid image input format." ∧
    ∀ img : PImage, (process_image bg (.decodable img)).success = true ∧
      (process_image bg (.decodable img)).final_size = some (512, 512) := by
  refine ⟨rfl, rfl, fun img => ?_⟩
  simp only [process_image, remove_background_step]
  cases hbg : bg img with
  | none => exact ⟨rfl, rfl⟩
  | some removed => exact ⟨rfl, rfl⟩

lemma roundHalfEven_lb (q : ℚ) : ⌊q⌋ ≤ roundHalfEven q := by
  unfold roundHalfEven
  split_ifs <;> omega

lemma roundHalfEven_ub (q : ℚ) : roundHalfEven q ≤ ⌊q⌋ + 1 := by
  unfold roundHalfEven
  split_ifs <;> omega

lemma roundHalfEven_mono {x y : ℚ} (h : x ≤ y) :
    roundHalfEven x ≤ roundHalfEven y := by
  have hf : ⌊x⌋ ≤ ⌊y⌋ := Int.floor_le_floor h
  rcases lt_or_eq_of_le hf with hlt | heq
  · calc roundHalfEven x ≤ ⌊x⌋ + 1 := roundHalfEven_ub x
      _ ≤ ⌊y⌋ := by omega
      _ ≤ roundHalfEven y := roundHalfEven_lb y
  · have hfr : x - ⌊x⌋ ≤ y - ⌊y⌋ := by
      rw [← heq]
      linarith
    unfold roundHalfEven
    rw [← heq]
    split_ifs <;> first | omega | (exfalso; linarith)

lemma roundHalfEven_intCast (n : ℤ) : roundHalfEven (n : ℚ) = n := by
  unfold roundHalfEven
  rw [Int.floor_intCast, sub_self]
  norm_num

lemma round1_mono {x y : ℚ} (h : x ≤ y) : round1 x ≤ round1 y := by
  unfold round1
  have h10 : x * 10 ≤ y * 10 := by linarith
  have hr := roundHalfEven_mono h10
  have hc : ((roundHalfEven (x * 10) : ℤ) : ℚ) ≤
      ((roundHalfEven (y * 10) : ℤ) : ℚ) := Int.cast_le.mpr hr
  linarith

lemma round1_zero : round1 0 = 0 := by
  unfold round1
  rw [show (0 : ℚ) * 10 = ((0 : ℤ) : ℚ) by norm_num, roundHalfEven_intCast]
  norm_num

lemma round1_hundred : round1 100 = 100 := by
  unfold round1
  rw [show (100 : ℚ) * 10 = ((1000 : ℤ) : ℚ) by norm_num,
    roundHalfEven_intCast]
  norm_num

lemma visual_score_bounds (d : ℚ) (hd : 0 ≤ d) :
    0 ≤ visual_score d ∧ visual_score d ≤ 1 := by
  unfold visual_score
  refine ⟨le_max_left 0 _, max_le (by norm_num) ?_⟩
  have : 0 ≤ d / 150 := by positivity
  linarith

lemma calculate_text_similarity_bounds (raw : ℚ) :
    0 ≤ calculate_text_similarity raw ∧ calculate_text_similarity raw ≤ 1 := by
  unfold calculate_text_similarity
  exact ⟨le_max_left 0 _, max_le (by norm_num) (min_le_left 1 raw)⟩

lemma hybrid_score_bounds {v t : ℚ} (hv0 : 0 ≤ v) (hv1 : v ≤ 1)
    (ht0 : 0 ≤ t) (ht1 : t ≤ 1) :
    0 ≤ hybrid_score v t ∧ hybrid_score v t ≤ 1 := by
  unfold hybrid_score
  constructor <;> nlinarith

/-- C6: the persisted `hybrid_score` is always within `[0, 100]`, and it
is monotone non-decreasing in the visual similarity and in the text
similarity taken independently (the combination is linear with
non-negative weights and Python's decimal rounding is monotone). -/
theorem claim_C6 :
    (∀ distance raw : ℚ, 0 ≤ distance →
      0 ≤ reported_hybrid_score (visual_score distance)
            (calculate_text_similarity raw) ∧
      reported_hybrid_score (visual_score distance)
            (calculate_text_similarity raw) ≤ 100) ∧
    (∀ v v' t : ℚ, v ≤ v' →
      reported_hybrid_score v t ≤ reported_hybrid_score v' t) ∧
    (∀ v t t' : ℚ, t ≤ t' →
      reported_hybrid_score v t ≤ reported_hybrid_score v t') := by
  refine ⟨?_, ?_, ?_⟩
  · intro d raw hd
    obtain ⟨hv0, hv1⟩ := visual_score_bounds d hd
    obtain ⟨ht0, ht1⟩ := calculate_text_similarity_bounds raw
    obtain ⟨hh0, hh1⟩ := hybrid_score_bounds hv0 hv1 ht0 ht1
    unfold reported_hybrid_score
    constructor
    · have := round1_mono (by linarith :
        (0 : ℚ) ≤ hybrid_score (visual_score d)
          (calculate_text_similarity raw) * 100)
      rw [round1_zero] at this
      exact this
    · have := round1_mono (by linarith :
        hybrid_score (visual_score d)
          (calculate_text_similarity raw) * 100 ≤ 100)
      rw [round1_hundred] at this
      exact this
  · intro v v' t hv
    unfold reported_hybrid_score
    apply round1_mono
    unfold hybrid_score
    nlinarith
  · intro v t t' ht
    unfold reported_hybrid_score
    apply round1_mono
    unfold hybrid_score
    nlinarith

/-- C6, witness at concrete inputs: a distance of 30, raw text cosine
1/2, and concrete similarity pairs for each monotonicity direction. -/
theorem claim_C6_witness :
    (0 ≤ reported_hybrid_score (visual_score 30)
        (calculate_text_similarity (1 / 2)) ∧
     reported_hybrid_score (visual_score 30)
        (calculate_text_similarity (1 / 2)) ≤ 100) ∧
    reported_hybrid_score (1 / 4) (1 / 2) ≤
      reported_hybrid_score (3 / 4) (1 / 2) ∧
    reported_hybrid_score (1 / 4) (1 / 2) ≤
      reported_hybrid_score (1 / 4) (7 / 8) :=
  ⟨claim_C6.1 30 (1 / 2) (by norm_num),
   claim_C6.2.1 (1 / 4) (3 / 4) (1 / 2) (by norm_num),
   claim_C6.2.2 (1 / 4) (1 / 2) (7 / 8) (by norm_num)⟩

lemma addVote_sum (votes : List (Cat × ℚ)) (cat : Cat) (w : ℚ) :
    sumVals (addVote votes cat w) = sumVals votes + w := by
  induction votes with
  | nil => simp [addVote, sumVals]
  | cons v rest ih =>
      obtain ⟨c, x⟩ := v
      rw [addVote]
      by_cases h : c = cat
      · rw [if_pos h]
        simp [sumVals]
        ring
      · rw [if_neg h]
        simp [sumVals] at ih ⊢
        rw [ih]
        ring

lemma addVote_nonneg (votes : List (Cat × ℚ)) (cat : Cat) (w : ℚ)
    (hv : ∀ p ∈ votes, 0 ≤ p.2) (hw : 0 ≤ w) :
    ∀ p ∈ addVote votes cat w, 0 ≤ p.2 := by
  induction votes with
  | nil =>
      intro p hp
      rw [addVote] at hp
      rcases List.mem_singleton.mp hp with h
      rw [h]
      exact hw
  | cons v rest ih =>
      obtain ⟨c, x⟩ := v
      intro p hp
      rw [addVote] at hp
      by_cases h : c = cat
      · rw [if_pos h] at hp
        rcases List.mem_cons.mp hp with h2 | h2
        · rw [h2]
          have := hv (c, x) (List.mem_cons_self _ _)
          simpa using add_nonneg this hw
        · exact hv p (List.mem_cons_of_mem _ h2)
      · rw [if_neg h] at hp
        rcases List.mem_cons.mp hp with h2 | h2
        · rw [h2]
          exact hv (c, x) (List.mem_cons_self _ _)
        · exact ih (fun q hq => hv q (List.mem_cons_of_mem _ hq)) p h2

lemma addVote_preserve (votes : List (Cat × ℚ)) (cat : Cat) (w : ℚ)
    (hw : 0 ≤ w) (c : Cat) (x : ℚ) (hm : (c, x) ∈ votes) :
    ∃ y, (c, y) ∈ addVote votes cat w ∧ x ≤ y := by
  induction votes with
  | nil => simp at hm
  | cons v rest ih =>
      obtain ⟨c0, x0⟩ := v
      rw [addVote]
      rcases List.mem_cons.mp hm with h2 | h2
      · have hc : c = c0 := congrArg Prod.fst h2
        have hx : x = x0 := congrArg Prod.snd h2
        by_cases h : c0 = cat
        · rw [if_pos h, hc, hx]
          exact ⟨x0 + w, List.mem_cons_self _ _, by linarith⟩
        · rw [if_neg h, hc, hx]
          exact ⟨x0, List.mem_cons_self _ _, le_refl x0⟩
      · by_cases h : c0 = cat
        · rw [if_pos h]
          exact ⟨x, List.mem_cons_of_mem _ h2, le_refl x⟩
        · rw [if_neg h]
          rcases ih h2 with ⟨y, hy, hxy⟩
          exact ⟨y, List.mem_cons_of_mem _ hy, hxy⟩

lemma voteStep_weight_nonneg (p : ℕ × (ℚ × ℚ × ℚ)) :
    0 ≤ 1 / ((p.1 : ℚ) + 1) := by positivity

lemma foldl_voteStep_sum :
    ∀ (lp : List (ℕ × (ℚ × ℚ × ℚ))) (votes : List (Cat × ℚ)),
      sumVals (List.foldl voteStep votes lp) =
        sumVals votes + (lp.map (fun p => 1 / ((p.1 : ℚ) + 1))).sum := by
  intro lp
  induction lp with
  | nil => intro votes; simp
  | cons p rest ih =>
      intro votes
      rw [List.foldl_cons, ih, voteStep, addVote_sum]
      simp
      ring

lemma foldl_voteStep_nonneg :
    ∀ (lp : List (ℕ × (ℚ × ℚ × ℚ))) (votes : List (Cat × ℚ)),
      (∀ p ∈ votes, 0 ≤ p.2) →
      ∀ p ∈ List.foldl voteStep votes lp, 0 ≤ p.2 := by
  intro lp
  induction lp with
  | nil => intro votes hv; simpa using hv
  | cons p rest ih =>
      intro votes hv
      rw [List.foldl_cons]
      exact ih _ (addVote_nonneg votes _ _ hv (voteStep_weight_nonneg p))

lemma foldl_voteStep_preserve :
    ∀ (lp : List (ℕ × (ℚ × ℚ × ℚ))) (votes : List (Cat × ℚ))
      (c : Cat) (x : ℚ), (c, x) ∈ votes →
      ∃ y, (c, y) ∈ List.foldl voteStep votes lp ∧ x ≤ y := by
  intro lp
  induction lp with
  | nil => intro votes c x hm; exact ⟨x, hm, le_refl x⟩
  | cons p rest ih =>
      intro votes c x hm
      rw [List.foldl_cons]
      rcases addVote_preserve votes _ _ (voteStep_weight_nonneg p) c x hm
        with ⟨y, hy, hxy⟩
      rcases ih _ c y hy with ⟨z, hz, hyz⟩
      exact ⟨z, hz, hxy.trans hyz⟩

lemma foldl_best_ge (votes : List (Cat × ℚ)) :
    ∀ init : Cat × ℚ,
      init.2 ≤ (votes.foldl
        (fun best p => if best.2 < p.2 then p else best) init).2 ∧
      ∀ p ∈ votes, p.2 ≤ (votes.foldl
        (fun best p => if best.2 < p.2 then p else best) init).2 := by
  induction votes with
  | nil => intro init; exact ⟨le_refl _, by simp⟩
  | cons v vs ih =>
      intro init
      rw [List.foldl_cons]
      obtain ⟨h1, h2⟩ := ih (if init.2 < v.2 then v else init)
      constructor
      · refine le_trans ?_ h1
        by_cases h : init.2 < v.2
        · rw [if_pos h]; exact h.le
        · rw [if_neg h]
      · intro p hp
        rcases List.mem_cons.mp hp with h3 | h3
        · refine le_trans ?_ h1
          rw [h3]
          by_cases h : init.2 < v.2
          · rw [if_pos h]
          · rw [if_neg h]; exact le_of_not_lt h
        · exact h2 p h3

lemma foldl_best_mem (votes : List (Cat × ℚ)) :
    ∀ init : Cat × ℚ,
      votes.foldl (fun best p => if best.2 < p.2 then p else best) init
          = init ∨
      votes.foldl (fun best p => if best.2 < p.2 then p else best) init
          ∈ votes := by
  induction votes with
  | nil => intro init; exact Or.inl rfl
  | cons v vs ih =>
      intro init
      rw [List.foldl_cons]
      rcases ih (if init.2 < v.2 then v else init) with h | h
      · rw [h]
        by_cases h2 : init.2 < v.2
        · rw [if_pos h2]
          exact Or.inr (List.mem_cons_self _ _)
        · rw [if_neg h2]
          exact Or.inl rfl
      · exact Or.inr (List.mem_cons_of_mem _ h)

lemma sumVals_nonneg (votes : List (Cat × ℚ))
    (hv : ∀ p ∈ votes, 0 ≤ p.2) : 0 ≤ sumVals votes := by
  induction votes with
  | nil => exact le_refl 0
  | cons v rest ih =>
      have h1 : sumVals (v :: rest) = v.2 + sumVals rest := by
        simp [sumVals]
      rw [h1]
      exact add_nonneg (hv v (List.mem_cons_self _ _))
        (ih (fun q hq => hv q (List.mem_cons_of_mem _ hq)))

lemma mem_le_sumVals (votes : List (Cat × ℚ))
    (hv : ∀ p ∈ votes, 0 ≤ p.2) (p : Cat × ℚ) (hp : p ∈ votes) :
    p.2 ≤ sumVals votes := by
  induction votes with
  | nil => simp at hp
  | cons v rest ih =>
      have h1 : sumVals (v :: rest) = v.2 + sumVals rest := by
        simp [sumVals]
      rw [h1]
      have hrest : 0 ≤ sumVals rest :=
        sumVals_nonneg rest (fun q hq => hv q (List.mem_cons_of_mem _ hq))
      rcases List.mem_cons.mp hp with h2 | h2
      · rw [h2]
        linarith
      · have := ih (fun q hq => hv q (List.mem_cons_of_mem _ hq)) h2
        have hv0 := hv v (List.mem_cons_self _ _)
        linarith

lemma buildVotes_sum (hsv : List (ℚ × ℚ × ℚ)) :
    sumVals (buildVotes hsv) = totalWeight hsv.length := by
  rw [buildVotes, totalWeight, foldl_voteStep_sum]
  rw [show sumVals ([] : List (Cat × ℚ)) = 0 from rfl, zero_add]
  rw [show hsv.enum.map (fun p => 1 / ((p.1 : ℚ) + 1)) =
      (hsv.enum.map Prod.fst).map wtOf from by
    rw [List.map_map]
    rfl]
  rw [List.enum_map_fst]

lemma buildVotes_nonneg (hsv : List (ℚ × ℚ × ℚ)) :
    ∀ p ∈ buildVotes hsv, 0 ≤ p.2 :=
  foldl_voteStep_nonneg hsv.enum [] (by simp)

lemma bestVote_nonneg (votes : List (Cat × ℚ)) : 0 ≤ (bestVote votes).2 :=
  (foldl_best_ge votes (Cat.unknown, 0)).1

lemma bestVote_le_sum (votes : List (Cat × ℚ))
    (hv : ∀ p ∈ votes, 0 ≤ p.2) : (bestVote votes).2 ≤ sumVals votes := by
  rcases foldl_best_mem votes (Cat.unknown, 0) with h | h
  · rw [bestVote, h]
    exact sumVals_nonneg votes hv
  · have hb : bestVote votes ∈ votes := h
    exact mem_le_sumVals votes hv _ hb

lemma totalWeight_succ (n : ℕ) :
    totalWeight (n + 1) = totalWeight n + wtOf n := by
  rw [totalWeight, totalWeight, List.range_succ, List.map_append,
    List.sum_append]
  simp

lemma wtOf_nonneg (n : ℕ) : 0 ≤ wtOf n := by
  rw [wtOf]
  positivity

lemma totalWeight_mono {m n : ℕ} (h : m ≤ n) :
    totalWeight m ≤ totalWeight n := by
  have haux : ∀ k, totalWeight m ≤ totalWeight (m + k) := by
    intro k
    induction k with
    | zero => exact le_refl _
    | succ j ih =>
        rw [show m + (j + 1) = (m + j) + 1 from rfl, totalWeight_succ]
        have := wtOf_nonneg (m + j)
        linarith
  have h2 := haux (n - m)
  rwa [show m + (n - m) = n from by omega] at h2

lemma totalWeight_zero : totalWeight 0 = 0 := rfl

lemma totalWeight_one : totalWeight 1 = 1 := by
  norm_num [totalWeight, List.range_succ, wtOf]

lemma totalWeight_five : totalWeight 5 = 137 / 60 := by
  norm_num [totalWeight, List.range_succ, wtOf]

lemma totalWeight_nonneg (n : ℕ) : 0 ≤ totalWeight n := by
  have := totalWeight_mono (Nat.zero_le n)
  rwa [totalWeight_zero] at this

lemma totalWeight_pos {n : ℕ} (h : 1 ≤ n) : 0 < totalWeight n := by
  have := totalWeight_mono h
  rw [totalWeight_one] at this
  linarith

lemma buildVotes_exists_ge_one (hsv : List (ℚ × ℚ × ℚ)) (hne : hsv ≠ []) :
    ∃ c y, (c, y) ∈ buildVotes hsv ∧ 1 ≤ y := by
  obtain ⟨h0, rest, rfl⟩ : ∃ h0 rest, hsv = h0 :: rest := by
    cases hsv with
    | nil => exact absurd rfl hne
    | cons a l => exact ⟨a, l, rfl⟩
  rw [buildVotes]
  rw [show (h0 :: rest).enum = (0, h0) :: rest.enumFrom 1 from rfl,
    List.foldl_cons]
  rw [show voteStep [] (0, h0) =
    [(classify_single_color h0.1 h0.2.1 h0.2.2,
      1 / (((0 : ℕ) : ℚ) + 1))] from rfl]
  rcases foldl_voteStep_preserve (rest.enumFrom 1) _
    (classify_single_color h0.1 h0.2.1 h0.2.2) (1 / (((0 : ℕ) : ℚ) + 1))
    (List.mem_singleton.mpr rfl) with ⟨y, hy, hxy⟩
  refine ⟨_, y, hy, ?_⟩
  have h1 : (1 : ℚ) ≤ 1 / (((0 : ℕ) : ℚ) + 1) := by norm_num
  linarith

lemma voteConfidence_nonneg (hsv : List (ℚ × ℚ × ℚ)) :
    0 ≤ voteConfidence hsv := by
  rw [voteConfidence]
  exact div_nonneg (bestVote_nonneg _) (totalWeight_nonneg _)

lemma voteConfidence_le_one (hsv : List (ℚ × ℚ × ℚ)) :
    voteConfidence hsv ≤ 1 := by
  rw [voteConfidence]
  rcases eq_or_lt_of_le (totalWeight_nonneg hsv.length) with h | h
  · rw [← h, div_zero]
    norm_num
  · rw [div_le_one h]
    calc (bestVote (buildVotes hsv)).2
        ≤ sumVals (buildVotes hsv) :=
          bestVote_le_sum _ (buildVotes_nonneg hsv)
      _ = totalWeight hsv.length := buildVotes_sum hsv

lemma voteConfidence_lower (hsv : List (ℚ × ℚ × ℚ)) (hne : hsv ≠ [])
    (hlen : hsv.length ≤ 5) : 60 / 137 ≤ voteConfidence hsv := by
  rw [voteConfidence]
  have h1 : 1 ≤ hsv.length := by
    cases hsv with
    | nil => exact absurd rfl hne
    | cons a l => exact Nat.succ_le_succ (Nat.zero_le _)
  have hpos : 0 < totalWeight hsv.length := totalWeight_pos h1
  have hle : totalWeight hsv.length ≤ 137 / 60 := by
    have := totalWeight_mono hlen
    rwa [totalWeight_five] at this
  rcases buildVotes_exists_ge_one hsv hne with ⟨c, y, hy, h1y⟩
  have hbest : y ≤ (bestVote (buildVotes hsv)).2 :=
    (foldl_best_ge (buildVotes hsv) (Cat.unknown, 0)).2 (c, y) hy
  have hb1 : (1 : ℚ) ≤ (bestVote (buildVotes hsv)).2 := le_trans h1y hbest
  calc (60 : ℚ) / 137 = 1 / (137 / 60) := by norm_num
    _ ≤ 1 / totalWeight hsv.length := one_div_le_one_div_of_le hpos hle
    _ ≤ (bestVote (buildVotes hsv)).2 / totalWeight hsv.length :=
        (div_le_div_right hpos).mpr hb1

lemma extract_length_le
    (km : List (ℚ × ℚ × ℚ) → Option (List (ℚ × ℚ × ℚ)))
    (hkm : ∀ ps cs, km ps = some cs → cs.length ≤ 5)
    (pixels : List (ℚ × ℚ × ℚ)) :
    (extract_dominant_colors km pixels 5).length ≤ 5 := by
  simp only [extract_dominant_colors]
  by_cases h : (pixels.filter brightness_ok).length < 5
  · rw [if_pos h]
    exact List.length_take_le 5 pixels
  · rw [if_neg h]
    cases hk : km (pixels.filter brightness_ok) with
    | none => simp
    | some cs => exact hkm _ cs hk

lemma brightness_ok_red : brightness_ok (100, 0, 0) = true := by
  rw [brightness_ok]
  rw [decide_eq_true_eq]
  norm_num

lemma pxMany_filter : pxMany.filter brightness_ok = pxMany := by
  rw [pxMany]
  rw [show List.replicate 5 ((100 : ℚ), (0 : ℚ), (0 : ℚ)) =
    [(100, 0, 0), (100, 0, 0), (100, 0, 0), (100, 0, 0), (100, 0, 0)]
    from rfl]
  simp only [List.filter_cons, brightness_ok_red, if_pos]
  rfl

lemma pxMany_filter_len : 5 ≤ (pxMany.filter brightness_ok).length := by
  rw [pxMany_filter, pxMany, List.length_replicate]

lemma extract_nil : extract_dominant_colors kmNone [] 5 = [] := rfl

lemma extract_one_red :
    extract_dominant_colors kmNone [(100, 0, 0)] 5 = [(100, 0, 0)] := by
  simp only [extract_dominant_colors]
  rw [show List.filter brightness_ok [(100, 0, 0)] = [(100, 0, 0)] from by
    simp only [List.filter_cons, brightness_ok_red, if_pos]
    rfl]
  rw [if_pos (by norm_num : ([((100 : ℚ), (0 : ℚ), (0 : ℚ))]).length < 5)]
  rfl

lemma categorize_confidence_bounds
    (km : List (ℚ × ℚ × ℚ) → Option (List (ℚ × ℚ × ℚ)))
    (input : ImageInput) :
    0 ≤ (categorize_by_color km input).confidence ∧
    (categorize_by_color km input).confidence ≤ 1 := by
  cases input with
  | undecodable => exact ⟨le_refl 0, (by norm_num : (0 : ℚ) ≤ 1)⟩
  | decoded pixels =>
      simp only [categorize_by_color]
      split_ifs with h1 h2
      · exact ⟨le_refl 0, by norm_num⟩
      · exact ⟨le_refl 0, by norm_num⟩
      · exact ⟨voteConfidence_nonneg _, voteConfidence_le_one _⟩

/-- C10: `categorize_by_color` is total over its duck-typed inputs and
every internal failure collapses to `{'category': 'unknown',
'confidence': 0.0, 'colors': []}`: undecodable input (the outer
`except`), an empty dominant-color list, and an exception inside
clustering (`km` returning `none` after the brightness filter keeps at
least 5 pixels); the returned confidence always lies in `[0, 1]`. -/
theorem claim_C10 (km : List (ℚ × ℚ × ℚ) → Option (List (ℚ × ℚ × ℚ)))
    (input : ImageInput) :
    (input = .undecodable →
      categorize_by_color km input = ⟨.unknown, 0, []⟩) ∧
    (∀ pixels, input = .decoded pixels →
      extract_dominant_colors km pixels 5 = [] →
      categorize_by_color km input = ⟨.unknown, 0, []⟩) ∧
    (∀ pixels, input = .decoded pixels →
      5 ≤ (pixels.filter brightness_ok).length →
      km (pixels.filter brightness_ok) = none →
      categorize_by_color km input = ⟨.unknown, 0, []⟩) ∧
    (0 ≤ (categorize_by_color km input).confidence ∧
     (categorize_by_color km input).confidence ≤ 1) := by
  refine ⟨?_, ?_, ?_, ?_⟩
  · intro h
    rw [h]
    rfl
  · intro pixels hin hex
    rw [hin]
    simp only [categorize_by_color]
    rw [hex]
    rfl
  · intro pixels hin h5 hnone
    have hex : extract_dominant_colors km pixels 5 = [] := by
      simp only [extract_dominant_colors]
      rw [if_neg (by omega : ¬ (pixels.filter brightness_ok).length < 5),
        hnone]
    rw [hin]
    simp only [categorize_by_color]
    rw [hex]
    rfl
  · exact categorize_confidence_bounds km input

/-- C10, witness: the three failure inputs (undecodable bytes, an image
with no pixels, and a clustering exception on five valid pixels) all
yield the default result, and the confidence bound holds there. -/
theorem claim_C10_witness :
    categorize_by_color kmNone .undecodable = ⟨Cat.unknown, 0, []⟩ ∧
    categorize_by_color kmNone (.decoded []) = ⟨Cat.unknown, 0, []⟩ ∧
    categorize_by_color kmNone (.decoded pxMany) = ⟨Cat.unknown, 0, []⟩ ∧
    (0 ≤ (categorize_by_color kmNone .undecodable).confidence ∧
     (categorize_by_color kmNone .undecodable).confidence ≤ 1) := by
  have h1 := claim_C10 kmNone .undecodable
  have h2 := claim_C10 kmNone (.decoded [])
  have h3 := claim_C10 kmNone (.decoded pxMany)
  exact ⟨h1.1 rfl, h2.2.1 [] rfl extract_nil,
    h3.2.2.1 pxMany rfl pxMany_filter_len rfl, h1.2.2.2⟩

/-- C7: the classifier's confidence is always within `[0, 1]`, and
whenever the returned confidence is below 0.3 the returned category is
`unknown`.  Moreover, on every reachable non-empty dominant-color list
(at most 5 colors, as `n_colors=5` clustering produces), the computed
vote confidence is at least `60/137 > 0.3`, so the `< 0.3` override
branch never fires and the returned confidence is exactly the computed
vote confidence — it is never clobbered by the branch's
`confidence = 0.0` reset. -/
theorem claim_C7 (km : List (ℚ × ℚ × ℚ) → Option (List (ℚ × ℚ × ℚ)))
    (hkm : ∀ ps cs, km ps = some cs → cs.length ≤ 5)
    (input : ImageInput) :
    (0 ≤ (categorize_by_color km input).confidence ∧
     (categorize_by_color km input).confidence ≤ 1) ∧
    ((categorize_by_color km input).confidence < 3 / 10 →
      (categorize_by_color km input).category = .unknown) ∧
    (∀ pixels, input = .decoded pixels →
      extract_dominant_colors km pixels 5 ≠ [] →
      (categorize_by_color km input).confidence =
        voteConfidence
          ((extract_dominant_colors km pixels 5).map rgb_to_hsv) ∧
      60 / 137 ≤ voteConfidence
          ((extract_dominant_colors km pixels 5).map rgb_to_hsv)) := by
  refine ⟨?_, ?_, ?_⟩
  · exact categorize_confidence_bounds km input
  · cases input with
    | undecodable => intro _; rfl
    | decoded pixels =>
        simp only [categorize_by_color]
        split_ifs with h1 h2
        · intro _; rfl
        · intro _; rfl
        · intro hlt
          exact absurd hlt h2
  · intro pixels hin hne
    subst hin
    rcases List.exists_cons_of_ne_nil hne with ⟨a, rest, heq⟩
    have hEmpty : ¬ ((extract_dominant_colors km pixels 5).isEmpty = true) := by
      rw [heq]
      exact Bool.false_ne_true
    have hsvne : (extract_dominant_colors km pixels 5).map rgb_to_hsv ≠ [] := by
      rw [heq]
      simp
    have hsvlen :
        ((extract_dominant_colors km pixels 5).map rgb_to_hsv).length ≤ 5 := by
      rw [List.length_map]
      exact extract_length_le km hkm pixels
    have hlow := voteConfidence_lower _ hsvne hsvlen
    have hnotlt : ¬ (voteConfidence
        ((extract_dominant_colors km pixels 5).map rgb_to_hsv) < 3 / 10) :=
      not_lt.mpr (le_trans (by norm_num : (3 : ℚ) / 10 ≤ 60 / 137) hlow)
    simp only [categorize_by_color]
    rw [if_neg hEmpty, if_neg hnotlt]
    exact ⟨rfl, hlow⟩

/-- C7, witness: at the empty image the returned confidence is 0 and the
category `unknown`; at a one-red-pixel image the dominant colors are
non-empty, the returned confidence equals the computed vote confidence
and the vote confidence meets the `60/137` bound. -/
theorem claim_C7_witness :
    (categorize_by_color kmNone (.decoded [])).category = Cat.unknown ∧
    ((categorize_by_color kmNone (.decoded [(100, 0, 0)])).confidence =
      voteConfidence
        ((extract_dominant_colors kmNone [(100, 0, 0)] 5).map rgb_to_hsv) ∧
     60 / 137 ≤ voteConfidence
        ((extract_dominant_colors kmNone [(100, 0, 0)] 5).map rgb_to_hsv)) ∧
    0 ≤ (categorize_by_color kmNone (.decoded [(100, 0, 0)])).confidence := by
  have h1 := claim_C7 kmNone (fun ps cs h => Option.noConfusion h)
    (.decoded [])
  have h2 := claim_C7 kmNone (fun ps cs h => Option.noConfusion h)
    (.decoded [(100, 0, 0)])
  refine ⟨h1.2.1 (show (0 : ℚ) < 3 / 10 from by norm_num), ?_, h2.1.1⟩
  exact h2.2.2 [(100, 0, 0)] rfl
    (by rw [extract_one_red]; exact List.cons_ne_nil _ _)

end PriceTracker
